import Mathlib

/-!
Verification of the incremental GradCafe crawler / record extractor
(`module_4/src/module_2_ref/scrape.py`, with the listing-only variant in
`module_3/module_2_ref/scrape.py`).

The HTML/regex layer (BeautifulSoup selectors, `status_pat`, `date_pat`,
quote search) is not executable in Lean; a listing table row is therefore
embedded as a `Row` record holding exactly the per-row values those
selectors produce (one field per intermediate variable of
`_extract_rows_from_html`).  Everything downstream of that boundary —
status normalization, date normalization (`_to_long_date` together with
the Python `strptime`/`strftime` semantics for the five formats it uses),
the robots.txt evaluator, record assembly, the dedup set, and the
pagination loop of `main` — is embedded directly from the source.

String primitives (`lower`, `strip`, `startswith`, splitting) are
re-implemented over `List Char` so that every definition evaluates inside
the kernel; they follow Python's ASCII behaviour.
-/

namespace Scrape

/-- Python whitespace for `str.strip()` (ASCII part). -/
def isWs (c : Char) : Bool :=
  c = ' ' ∨ c = '\t' ∨ c = '\n' ∨ c = '\r' ∨ c = '\x0b' ∨ c = '\x0c'

/-- Python `str.strip()`: drop leading and trailing whitespace. -/
def strTrim (s : String) : String :=
  ⟨((s.data.dropWhile isWs).reverse.dropWhile isWs).reverse⟩

/-- Python `str.lower()` (ASCII). -/
def strLower (s : String) : String := ⟨s.data.map Char.toLower⟩

/-- Python `s.startswith(p)`. -/
def strStartsWith (s p : String) : Bool := p.data.isPrefixOf s.data

/-- Python `a or b` on strings: `b` if `a` is empty (falsy), else `a`. -/
def pyOr (a b : String) : String := if a = "" then b else a

/-- Python `str.title()` restricted to ASCII letters: a letter that follows
a non-letter is uppercased, a letter that follows a letter is lowercased. -/
def titleAux : Bool → List Char → List Char
  | _, [] => []
  | prevAlpha, c :: cs =>
    if c.isAlpha then (if prevAlpha then c.toLower else c.toUpper) :: titleAux true cs
    else c :: titleAux false cs

def titlecase (s : String) : String := ⟨titleAux false s.data⟩

/-- `_norm_status` from `scrape.py`: lowercase, then map the four known
decision stems to canonical labels; any other non-empty string is
title-cased (Python titles the lowered string); empty stays empty.
(The module_4 variant first replaces `None` by `""`; the argument here is
already a string.) -/
def norm_status (s : String) : String :=
  if strStartsWith (strLower s) ("accept") then "Accepted"
  else if strStartsWith (strLower s) ("reject") then "Rejected"
  else if strStartsWith (strLower s) ("wait") then "Wait listed"
  else if strStartsWith (strLower s) ("interview") then "Interview"
  else if strLower s = "" then "" else titlecase (strLower s)

/-- The token captured by group 1 of `status_pat`
(`accept\w*|reject\w*|wait[\s-]*list\w*|interview\w*`, IGNORECASE) always
begins, case-insensitively, with one of the four decision stems. -/
def statusStem (s : String) : Prop :=
  strStartsWith (strLower s) ("accept") = true ∨
  strStartsWith (strLower s) ("reject") = true ∨
  strStartsWith (strLower s) ("wait") = true ∨
  strStartsWith (strLower s) ("interview") = true

/-! ## Robots policy evaluator (`_robots_allowed`) -/

/-- Everything after the first `':'`; Python `s.split(":", 1)[1]`
(callers guard on a directive name containing a colon). -/
def afterColon : List Char → List Char
  | [] => []
  | c :: cs => if c = ':' then cs else afterColon cs

def colonRest (s : String) : String := ⟨afterColon s.data⟩

/-- Split a character stream at every occurrence of `sep`. -/
def splitChar (sep : Char) : List Char → List (List Char)
  | [] => [[]]
  | c :: cs =>
    match splitChar sep cs with
    | [] => [[c]]
    | g :: gs => if c = sep then [] :: g :: gs else (c :: g) :: gs

/-- The lines of a robots.txt body; Python `splitlines` on `\n`
(a trailing `\r` of a `\r\n` line is removed by the `strip` each line
receives in the loop). -/
def strLines (txt : String) : List String :=
  (splitChar '\n' txt.data).map fun l => String.mk l

/-- The line loop of `_robots_allowed`: walk the stripped lines of
robots.txt keeping the `in_star` flag (are we inside a `User-agent: *`
group?); collect the values of `Disallow:` lines seen while the flag is
set.  Blank lines and `#` comments are skipped without touching the flag. -/
def robotsLoop : List String → Bool → List String
  | [], _ => []
  | l :: ls, in_star =>
    let s := strTrim l
    if s = "" ∨ strStartsWith s ("#") then robotsLoop ls in_star
    else
      let low := strLower s
      if strStartsWith low ("user-agent:") then
        robotsLoop ls (strTrim (colonRest s) = "*")
      else if in_star ∧ strStartsWith low ("disallow:") then
        strTrim (colonRest s) :: robotsLoop ls in_star
      else robotsLoop ls in_star

/-- The `Disallow` rules of the wildcard agent group of a robots.txt body. -/
def robotsDisallows (txt : String) : List String :=
  robotsLoop (strLines txt) false

/-- `_robots_allowed`, applied to the fetched robots.txt body:
`not any(rule and path.startswith(rule) for rule in disallows)`. -/
def robots_allowed (txt path : String) : Bool :=
  !((robotsDisallows txt).any fun rule => rule ≠ "" && strStartsWith path rule)

/-! ## Date normalization (`_to_long_date`)

`_to_long_date` tries `datetime.strptime` with the formats
`["%b %d, %Y", "%B %d, %Y", "%Y-%m-%d", "%m/%d/%Y", "%d/%m/%Y"]`
(the two slash formats are tried first in day-first order when the token
fully matches `\d{1,2}/\d{1,2}/\d{4}` and its first component exceeds 12)
and renders the first success with `strftime("%B %d, %Y")`.

CPython's `_strptime` matches the lowercased data string against a regex
built from the format: runs of whitespace in the format become `\s+`,
`%d` matches 1–2 digits valued 1–31, `%m` 1–2 digits valued 1–12,
`%Y` exactly 4 digits, `%b`/`%B` the C-locale abbreviated/full month
names; the whole string must be consumed, and the resulting
`datetime(year, month, day)` constructor additionally requires
`1 ≤ year` and `day ≤ days-in-month` (else `ValueError`, caught by
`_to_long_date`, which then tries the next format).  Because every
literal following a digit field here is a non-digit (`/`, `-`, `,`,
whitespace), the regex's backtracking is equivalent to maximal-munch
digit runs with a length check, which is what the parsers below use. -/

/-- Maximal run of ASCII digits. -/
def takeDigits : List Char → List Char × List Char
  | [] => ([], [])
  | c :: cs =>
    if c.isDigit then
      let r := takeDigits cs
      (c :: r.1, r.2)
    else ([], c :: cs)

def digitsVal (l : List Char) : Nat :=
  l.foldl (fun acc c => acc * 10 + (c.toNat - 48)) 0

/-- `\s+`: at least one whitespace character, consumed maximally. -/
def skipWs1 (l : List Char) : Option (List Char) :=
  match l with
  | c :: cs => if isWs c then some (cs.dropWhile isWs) else none
  | [] => none

/-- Field `%d` (day): 1 digit valued 1–9 or 2 digits valued 01–31. -/
def parseDay (l : List Char) : Option (Nat × List Char) :=
  let r := takeDigits l
  if r.1.length = 1 ∧ 1 ≤ digitsVal r.1 then some (digitsVal r.1, r.2)
  else if r.1.length = 2 ∧ 1 ≤ digitsVal r.1 ∧ digitsVal r.1 ≤ 31 then some (digitsVal r.1, r.2)
  else none

/-- Field `%m` (month number): 1 digit valued 1–9 or 2 digits valued 01–12. -/
def parseMonthNum (l : List Char) : Option (Nat × List Char) :=
  let r := takeDigits l
  if r.1.length = 1 ∧ 1 ≤ digitsVal r.1 then some (digitsVal r.1, r.2)
  else if r.1.length = 2 ∧ 1 ≤ digitsVal r.1 ∧ digitsVal r.1 ≤ 12 then some (digitsVal r.1, r.2)
  else none

/-- Field `%Y`: exactly 4 digits. -/
def parseYear4 (l : List Char) : Option (Nat × List Char) :=
  let r := takeDigits l
  if r.1.length = 4 then some (digitsVal r.1, r.2) else none

def expectChar (c : Char) (l : List Char) : Option (List Char) :=
  match l with
  | d :: ds => if d = c then some ds else none
  | [] => none

/-- C-locale month names, lowercased (the data string is lowercased before
matching).  Index i+1 is month i+1. -/
def monthAbbrevs : List String :=
  ["jan", "feb", "mar", "apr", "may", "jun", "jul", "aug", "sep", "oct", "nov", "dec"]

def monthFulls : List String :=
  ["january", "february", "march", "april", "may", "june", "july", "august",
   "september", "october", "november", "december"]

/-- Try each month name as a literal head of the stream; names are pairwise
non-ambiguous in either list. -/
def parseMonthName (names : List String) (start : Nat) (l : List Char) :
    Option (Nat × List Char) :=
  match names with
  | [] => none
  | n :: ns =>
    if n.data.isPrefixOf l then some (start, l.drop n.data.length)
    else parseMonthName ns (start + 1) l

/-- `"%b %d, %Y"` and `"%B %d, %Y"`. -/
def pFmtNameDY (names : List String) (l : List Char) : Option (Nat × Nat × Nat) := do
  let (m, l) ← parseMonthName names 1 l
  let l ← skipWs1 l
  let (d, l) ← parseDay l
  let l ← expectChar ',' l
  let l ← skipWs1 l
  let (y, l) ← parseYear4 l
  if l = [] then some (y, m, d) else none

/-- `"%Y-%m-%d"`. -/
def pFmtYmd (l : List Char) : Option (Nat × Nat × Nat) := do
  let (y, l) ← parseYear4 l
  let l ← expectChar '-' l
  let (m, l) ← parseMonthNum l
  let l ← expectChar '-' l
  let (d, l) ← parseDay l
  if l = [] then some (y, m, d) else none

/-- `"%m/%d/%Y"`. -/
def pFmtMdY (l : List Char) : Option (Nat × Nat × Nat) := do
  let (m, l) ← parseMonthNum l
  let l ← expectChar '/' l
  let (d, l) ← parseDay l
  let l ← expectChar '/' l
  let (y, l) ← parseYear4 l
  if l = [] then some (y, m, d) else none

/-- `"%d/%m/%Y"`. -/
def pFmtDmY (l : List Char) : Option (Nat × Nat × Nat) := do
  let (d, l) ← parseDay l
  let l ← expectChar '/' l
  let (m, l) ← parseMonthNum l
  let l ← expectChar '/' l
  let (y, l) ← parseYear4 l
  if l = [] then some (y, m, d) else none

def isLeap (y : Nat) : Bool := y % 4 = 0 ∧ (¬ y % 100 = 0 ∨ y % 400 = 0)

def daysInMonth (y m : Nat) : Nat :=
  if m = 2 then (if isLeap y then 29 else 28)
  else if m = 4 ∨ m = 6 ∨ m = 9 ∨ m = 11 then 30
  else 31

/-- The `datetime(year, month, day)` constructor check (month bounds are
already guaranteed by the field parsers; `year ≤ 9999` by the 4-digit
field). -/
def validYMD (y m d : Nat) : Bool :=
  1 ≤ y ∧ 1 ≤ m ∧ m ≤ 12 ∧ 1 ≤ d ∧ d ≤ daysInMonth y m

/-- One `try: datetime.strptime(...)` arm: parse, then construct. -/
def tryFmt (p : List Char → Option (Nat × Nat × Nat)) (l : List Char) :
    Option (Nat × Nat × Nat) :=
  match p l with
  | some (y, m, d) => if validYMD y m d then some (y, m, d) else none
  | none => none

def tryFmts (ps : List (List Char → Option (Nat × Nat × Nat))) (l : List Char) :
    Option (Nat × Nat × Nat) :=
  match ps with
  | [] => none
  | p :: rest =>
    match tryFmt p l with
    | some r => some r
    | none => tryFmts rest l

/-- `strftime("%B")`: full month name. -/
def monthNameOut : Nat → String
  | 1 => "January" | 2 => "February" | 3 => "March" | 4 => "April"
  | 5 => "May" | 6 => "June" | 7 => "July" | 8 => "August"
  | 9 => "September" | 10 => "October" | 11 => "November" | 12 => "December"
  | _ => ""

/-- `strftime("%d")`: zero-padded two-digit day. -/
def pad2 (n : Nat) : String := if n < 10 then "0" ++ toString n else toString n

/-- `strftime("%B %d, %Y")` on glibc: full month name, zero-padded day,
year as a plain decimal number (no zero padding — a year below 1000
prints with fewer than four digits). -/
def fmtLong (y m d : Nat) : String :=
  monthNameOut m ++ " " ++ pad2 d ++ ", " ++ toString y

/-- `re.fullmatch(r"\d{1,2}/\d{1,2}/\d{4}", t)`: on success, the integer
value of the first component. -/
def slashShape (l : List Char) : Option Nat :=
  let a := takeDigits l
  if a.1.length = 0 ∨ a.1.length > 2 then none else
  match a.2 with
  | '/' :: r2 =>
    let b := takeDigits r2
    if b.1.length = 0 ∨ b.1.length > 2 then none else
    match b.2 with
    | '/' :: r4 =>
      let c := takeDigits r4
      if c.1.length = 4 ∧ c.2 = [] then some (digitsVal a.1) else none
    | _ => none
  | _ => none

/-- The five formats of `_to_long_date`, in source order. -/
def baseFmts : List (List Char → Option (Nat × Nat × Nat)) :=
  [pFmtNameDY monthAbbrevs, pFmtNameDY monthFulls, pFmtYmd, pFmtMdY, pFmtDmY]

/-- The format list actually tried for a (stripped) token: day-first
formats are put in front exactly when the token fully matches
`\d{1,2}/\d{1,2}/\d{4}` with first component above 12. -/
def fmtsFor (t : String) : List (List Char → Option (Nat × Nat × Nat)) :=
  match slashShape t.data with
  | some a => if a > 12 then pFmtDmY :: pFmtMdY :: baseFmts else baseFmts
  | none => baseFmts

/-- `_to_long_date` from `module_4/src/module_2_ref/scrape.py`. -/
def to_long_date (token : String) : String :=
  if token = "" then ""
  else
    match tryFmts (fmtsFor (strTrim token)) ((strLower (strTrim token)).data) with
    | some (y, m, d) => fmtLong y m d
    | none => ""

/-! ## Data model

`DetailFields` is the dict built by `_parse_detail_fields` (every key
present, defaulting to `""`).  `_fetch_detail` returns `{}` when the
detail fetch or parse raises; that is `none` here, and `dget` mirrors
`d.get(key)` / `d.get(key, "")` — both give the falsy `""` through the
`or` merge below.

`Row` is the shallow boundary with the HTML layer: one field per
intermediate value that `_extract_rows_from_html` (module_4) computes
from a `<tr>` via BeautifulSoup/regex before assembling the record:
  * `hasStatus`    — `status_pat.search(row_text)` succeeded (rows
                     without a status token are skipped);
  * `statusToken`  — group 1 of that match;
  * `dateAdded`    — `date_pat` match inside `tds[2]`, else `""`;
  * `ctxDate`      — `date_pat` match inside the two-row context text
                     `ctx`, else `""` (used only by the module_3
                     variant's date routing);
  * `startTerm`    — `start_term_pat` match inside `ctx`, else `""`;
  * `entryUrl`     — absolute URL of the row's (or previous row's)
                     `/result/<id>` link, else `""` (module_4) — the
                     module_3 variant instead falls back to
                     `f"{page_url}#row"`;
  * `listProgram`, `listDegree` — texts of the middle cell's spans;
  * `listUniversity` — module_3's `uni_a` link text (module_4 keeps
                     `university = ""` from the listing);
  * `comments`     — first quoted run inside `ctx`, else `""`. -/

structure DetailFields where
  GPA : String := ""
  GRE : String := ""
  GRE_V : String := ""
  GRE_AW : String := ""
  university : String := ""
  program : String := ""
  degree : String := ""
  notes : String := ""
  us_intl : String := ""
  decision : String := ""
  notification_on : String := ""
  deriving DecidableEq, Repr

/-- `d.get(key)` with the `{}`-on-failure convention of `_fetch_detail`:
a failed fetch yields `""` for every key. -/
def dget (d : Option DetailFields) (f : DetailFields → String) : String :=
  match d with
  | none => ""
  | some v => f v

/-- Line 126 of `scrape.py` (`Notification` branch of
`_parse_detail_fields`): `out["notification_on"] = _to_long_date(m.group(0))
if m else ""`, where `m` is the `date_pat` search over the dd value. -/
def notification_of (m : Option String) : String :=
  match m with
  | some tok => to_long_date tok
  | none => ""

structure Row where
  hasStatus : Bool := true
  statusToken : String := ""
  dateAdded : String := ""
  ctxDate : String := ""
  startTerm : String := ""
  entryUrl : String := ""
  listProgram : String := ""
  listDegree : String := ""
  listUniversity : String := ""
  comments : String := ""
  deriving DecidableEq, Repr

/-- The persisted record shape of the module_4 scraper (keys in source
order; `GRE V`/`GRE AW`/`US/International` renamed to legal field names). -/
structure Rec where
  status : String := ""
  date_added : String := ""
  acceptance_date : String := ""
  rejection_date : String := ""
  start_term : String := ""
  degree : String := ""
  program : String := ""
  university : String := ""
  comments : String := ""
  entry_url : String := ""
  us_international : String := ""
  GRE : String := ""
  GRE_V : String := ""
  GPA : String := ""
  GRE_AW : String := ""
  deriving DecidableEq, Repr

/-- Record assembly of `_extract_rows_from_html` (module_4, lines
190–237): detail enrich, status resolution, date routing, field merge.
`d` is `_fetch_detail`'s result (`none` = the fetch raised and `{}` came
back). -/
def mkRecord (row : Row) (d : Option DetailFields) : Rec :=
  let list_status := if row.hasStatus then norm_status row.statusToken else ""
  let status := norm_status (pyOr (dget d (fun v => v.decision)) list_status)
  let note_date := dget d (fun v => v.notification_on)
  { status := status
  , date_added := row.dateAdded
  , acceptance_date := if status = "Accepted" then note_date else ""
  , rejection_date := if status = "Rejected" then note_date else ""
  , start_term := row.startTerm
  , degree := pyOr (dget d (fun v => v.degree)) row.listDegree
  , program := pyOr (dget d (fun v => v.program)) row.listProgram
  , university := pyOr (dget d (fun v => v.university)) ""
  , comments := pyOr (dget d (fun v => v.notes)) row.comments
  , entry_url := row.entryUrl
  , us_international := dget d (fun v => v.us_intl)
  , GRE := dget d (fun v => v.GRE)
  , GRE_V := dget d (fun v => v.GRE_V)
  , GPA := dget d (fun v => v.GPA)
  , GRE_AW := dget d (fun v => v.GRE_AW) }

/-- The per-row date routing of the module_3 (listing-only) variant,
lines 69–122: `m_date = date_pat.search(row_date_text) or
date_pat.search(ctx)`, routed by the listing status. -/
def m3_date (row : Row) : String := pyOr row.dateAdded row.ctxDate

structure M3Rec where
  status : String := ""
  acceptance_date : String := ""
  rejection_date : String := ""
  start_term : String := ""
  degree : String := ""
  program : String := ""
  university : String := ""
  comments : String := ""
  entry_url : String := ""
  deriving DecidableEq, Repr

def m3_mkRecord (row : Row) : M3Rec :=
  let status := if row.hasStatus then norm_status row.statusToken else ""
  let date := m3_date row
  { status := status
  , acceptance_date := if date ≠ "" ∧ status = "Accepted" then date else ""
  , rejection_date := if date ≠ "" ∧ status = "Rejected" then date else ""
  , start_term := row.startTerm
  , degree := row.listDegree
  , program := row.listProgram
  , university := row.listUniversity
  , comments := row.comments
  , entry_url := row.entryUrl }

/-! ## The extraction loop over a page's rows (`_extract_rows_from_html`)

The module_4 loop: skip rows without a status token; resolve the entry
URL and skip the row when it is empty or already seen; otherwise fetch
the detail page, assemble the record, append it, and add the URL to the
seen set.  `detail` is the ambient `_fetch_detail` (None = raised). -/

def extractRows (detail : String → Option DetailFields) :
    List Row → List String → List Rec × List String
  | [], seen => ([], seen)
  | r :: rest, seen =>
    if r.hasStatus = false then extractRows detail rest seen
    else if r.entryUrl = "" ∨ r.entryUrl ∈ seen then extractRows detail rest seen
    else
      let out := extractRows detail rest (r.entryUrl :: seen)
      (mkRecord r (detail r.entryUrl) :: out.1, out.2)

/-! ## The pagination controller (`main`)

`pages p` is what fetching and list-parsing page `p` yields: `some rows`
when `_http_get` returns a body (any status code — urllib3 does not raise
on non-2xx, so an error page is just a body whose parse yields no
candidate rows), `none` when the transport raises.  `main` wraps neither
the page-1 fetch nor the loop fetches in `try`, so `none` aborts the run
with an uncaught exception: no further flush happens and the process does
not exit normally (`ok = false`); the file keeps the rows flushed through
the prior page.

The loop body mirrors `main`: flush rewrites the whole file after every
page, so the final file content is the final `rows` value.  The loop is
given fuel `TARGET + 1`, which is more iterations than the `while
len(rows) < TARGET` loop can execute, because every iteration that
continues appended at least one record. -/

def TARGET : Nat := 30000

/-- Resume: `seen` rebuilt from the existing output file
(`if r.get("entry_url"): seen.add(...)`). -/
def resumeSeen (rows : List Rec) : List String :=
  rows.filterMap fun r => if r.entry_url = "" then none else some r.entry_url

structure CrawlOut where
  rows : List Rec
  seen : List String
  fetched : List Nat
  ok : Bool
  deriving DecidableEq, Repr

def crawlLoop (pages : Nat → Option (List Row)) (detail : String → Option DetailFields) :
    Nat → Nat → List Rec → List String → CrawlOut
  | 0, _page, rows, seen => ⟨rows, seen, [], true⟩
  | fuel + 1, page, rows, seen =>
    if rows.length < TARGET then
      match pages page with
      | none => ⟨rows, seen, [page], false⟩
      | some pr =>
        let es := extractRows detail pr seen
        if es.1.length = 0 then ⟨rows ++ es.1, es.2, [page], true⟩
        else
          let out := crawlLoop pages detail fuel (page + 1) (rows ++ es.1) es.2
          ⟨out.rows, out.seen, page :: out.fetched, out.ok⟩
    else ⟨rows, seen, [], true⟩

/-- `main` after the robots check: resume from the file contents, process
page 1 unconditionally, then loop from page 2 while below `TARGET`.
`rows` of the result is the final persisted file content; `fetched` the
pages for which a fetch was attempted, in order; `ok` whether the process
reached its normal exit. -/
def crawl (pages : Nat → Option (List Row)) (detail : String → Option DetailFields)
    (file : List Rec) : CrawlOut :=
  let seen0 := resumeSeen file
  match pages 1 with
  | none => ⟨file, seen0, [1], false⟩
  | some p1 =>
    let es := extractRows detail p1 seen0
    let out := crawlLoop pages detail (TARGET + 1) 2 (file ++ es.1) es.2
    ⟨out.rows, out.seen, 1 :: out.fetched, out.ok⟩

/-- A source whose every fetch succeeds (the 'unchanged source' of the
idempotence property). -/
def pagesOf (f : Nat → List Row) : Nat → Option (List Row) := fun n => some (f n)

/-- Reference trace of the crawl against a total source, ignoring the
`TARGET` cutoff: `stateAt p` is (records, seen) after pages `1..p` have
been extracted in order, starting from the resume state. -/
def stateAt (f : Nat → List Row) (detail : String → Option DetailFields)
    (file : List Rec) : Nat → List Rec × List String
  | 0 => (file, resumeSeen file)
  | p + 1 =>
    let st := stateAt f detail file p
    let es := extractRows detail (f (p + 1)) st.2
    (st.1 ++ es.1, es.2)

/-- The records page `p` contributes in that trace ('previously-unseen
stubs' accepted on page `p`). -/
def newAt (f : Nat → List Row) (detail : String → Option DetailFields)
    (file : List Rec) (p : Nat) : List Rec :=
  (extractRows detail (f p) (stateAt f detail file (p - 1)).2).1

def rowA : Row :=
  { hasStatus := true, statusToken := "Accepted", entryUrl := "u1",
    listProgram := "Computer Science", listDegree := "PhD" }

def noDetail : String → Option DetailFields := fun _ => none

def cex8pages : Nat → List Row := fun n => if n = 2 then [rowA] else []

def rowB : Row := { hasStatus := true, statusToken := "Rejected", entryUrl := "u9" }

def wit8pages : Nat → List Row :=
  fun n => if n = 1 then [rowA] else if n = 2 then [rowB] else []

def detailCaps : DetailFields := { decision := "ACCEPTED" }

def detailFull : DetailFields :=
  { university := "MIT", program := "Mathematics", degree := "Masters",
    notes := "detail note", decision := "Wait listed" }

def rowCtx : Row :=
  { hasStatus := true, statusToken := "Accepted", entryUrl := "u2",
    ctxDate := "March 14, 2025" }

def emptyDetail : DetailFields := {}

def cex9pages : Nat → Option (List Row) :=
  fun n => if n = 1 then some [rowA] else none

/-- Capitalized month names as printed by `strftime("%B")`. -/
def monthCaps : List String :=
  ["January", "February", "March", "April", "May", "June", "July", "August",
   "September", "October", "November", "December"]

/-- Checker for the spec's literal `Month DD, YYYY` shape: a full month
name, a space, exactly two digits, a comma, a space, and exactly four
digits. -/
def specLongFormat (s : String) : Bool :=
  match parseMonthName monthCaps 1 s.data with
  | none => false
  | some (_, l1) =>
    match l1 with
    | c :: l2 =>
      if c = ' ' then
        let dd := takeDigits l2
        if dd.1.length = 2 then
          match dd.2 with
          | ',' :: ' ' :: l3 =>
            let yy := takeDigits l3
            (yy.1.length == 4) && yy.2.isEmpty
          | _ => false
        else false
      else false
    | [] => false

/-! ## Proofs -/

theorem head_ne_not_pre {l t : List Char} (u : List Char) {a : Char} (b : Char)
    (hab : b ≠ a) (ha : (a :: t) <+: l) : ¬ ((b :: u) <+: l) := by
  rintro ⟨t2, hb⟩
  rcases ha with ⟨t1, ht⟩
  rw [← ht] at hb
  simp only [List.cons_append, List.cons.injEq] at hb
  exact hab hb.1

theorem norm_status_of_stem (s : String) (h : statusStem s) :
    norm_status s = "Accepted" ∨ norm_status s = "Rejected" ∨
    norm_status s = "Wait listed" ∨ norm_status s = "Interview" := by
  rcases h with h | h | h | h
  · have hp : ("accept").data <+: (strLower s).data := by
      simpa [strStartsWith] using h
    simp [norm_status, strStartsWith, hp]
  · have hp : ("reject").data <+: (strLower s).data := by
      simpa [strStartsWith] using h
    have h1 := head_ne_not_pre (("ccept").data) 'a' (by decide) hp
    simp [norm_status, strStartsWith, hp, h1]
  · have hp : ("wait").data <+: (strLower s).data := by
      simpa [strStartsWith] using h
    have h1 := head_ne_not_pre (("ccept").data) 'a' (by decide) hp
    have h2 := head_ne_not_pre (("eject").data) 'r' (by decide) hp
    simp [norm_status, strStartsWith, hp, h1, h2]
  · have hp : ("interview").data <+: (strLower s).data := by
      simpa [strStartsWith] using h
    have h1 := head_ne_not_pre (("ccept").data) 'a' (by decide) hp
    have h2 := head_ne_not_pre (("eject").data) 'r' (by decide) hp
    have h3 := head_ne_not_pre (("ait").data) 'w' (by decide) hp
    simp [norm_status, strStartsWith, hp, h1, h2, h3]

theorem norm_status_idem_of_stem (s : String) (h : statusStem s) :
    norm_status (norm_status s) = norm_status s := by
  rcases norm_status_of_stem s h with h1 | h1 | h1 | h1 <;> rw [h1] <;> decide

theorem tryFmt_valid (p : List Char → Option (Nat × Nat × Nat)) (l : List Char)
    (y m d : Nat) (h : tryFmt p l = some (y, m, d)) : validYMD y m d = true := by
  unfold tryFmt at h
  cases hp : p l with
  | none => rw [hp] at h; cases h
  | some t =>
    obtain ⟨y', m', d'⟩ := t
    rw [hp] at h
    by_cases hv : validYMD y' m' d' = true
    · simp only [hv, if_true] at h
      obtain ⟨rfl, rfl, rfl⟩ : y' = y ∧ m' = m ∧ d' = d := by
        have := Option.some.inj h
        exact ⟨congrArg Prod.fst this, congrArg Prod.fst (congrArg Prod.snd this),
          congrArg Prod.snd (congrArg Prod.snd this)⟩
      exact hv
    · simp [hv] at h

theorem tryFmts_valid (ps : List (List Char → Option (Nat × Nat × Nat))) (l : List Char)
    (y m d : Nat) (h : tryFmts ps l = some (y, m, d)) : validYMD y m d = true := by
  induction ps with
  | nil => simp [tryFmts] at h
  | cons p rest ih =>
    unfold tryFmts at h
    cases hf : tryFmt p l with
    | none => rw [hf] at h; exact ih h
    | some r =>
      rw [hf] at h
      obtain rfl : r = (y, m, d) := Option.some.inj h
      exact tryFmt_valid p l y m d hf

/-- Every non-empty output of `_to_long_date` is a rendered valid
calendar date. -/
theorem to_long_date_shape (token : String) :
    to_long_date token = "" ∨
    ∃ y m d, validYMD y m d = true ∧ to_long_date token = fmtLong y m d := by
  by_cases h0 : token = ""
  · left; simp [to_long_date, h0]
  · cases htry : tryFmts (fmtsFor (strTrim token)) ((strLower (strTrim token)).data) with
    | none => left; simp [to_long_date, h0, htry]
    | some t =>
      obtain ⟨y, m, d⟩ := t
      right
      exact ⟨y, m, d, tryFmts_valid _ _ y m d htry, by simp [to_long_date, h0, htry]⟩

theorem to_long_date_examples :
    to_long_date ("14/09/2025") = "September 14, 2025" ∧
    to_long_date ("2025-09-14") = "September 14, 2025" ∧
    to_long_date ("Sep 14, 2025") = "September 14, 2025" ∧
    to_long_date ("September 14, 2025") = "September 14, 2025" ∧
    to_long_date ("05/06/2025") = "May 06, 2025" ∧
    to_long_date ("13/06/2025") = "June 13, 2025" ∧
    to_long_date ("31/02/2025") = "" ∧
    to_long_date ("29/02/2024") = "February 29, 2024" ∧
    to_long_date ("29/02/2025") = "" ∧
    to_long_date ("not a date") = "" ∧
    to_long_date ("") = "" := by
  refine ⟨?_, ?_, ?_, ?_, ?_, ?_, ?_, ?_, ?_, ?_, ?_⟩ <;> decide

theorem robots_allowed_example :
    robots_allowed ("User-agent: *\nDisallow: /cgi-bin/\nDisallow: /index\n") ("/survey/") = true ∧
    robots_allowed ("# note\r\nUser-agent: *\r\nDisallow: /survey/\r\n") ("/survey/") = false ∧
    robots_allowed ("User-agent: googlebot\nDisallow: /survey/\n") ("/survey/") = true ∧
    robots_allowed ("<html>404 not found</html>") ("/survey/") = true := by
  refine ⟨?_, ?_, ?_, ?_⟩ <;> decide

/-! ## Lemmas about the extraction loop -/

theorem mkRecord_entry_url (r : Row) (d : Option DetailFields) :
    (mkRecord r d).entry_url = r.entryUrl := rfl

theorem extract_seen_mono (detail : String → Option DetailFields) (rows : List Row)
    (seen : List String) (u : String) (hu : u ∈ seen) :
    u ∈ (extractRows detail rows seen).2 := by
  induction rows generalizing seen with
  | nil => simpa [extractRows] using hu
  | cons r rest ih =>
    by_cases h1 : r.hasStatus = false
    · simpa [extractRows, h1] using ih seen hu
    · by_cases h2 : r.entryUrl = "" ∨ r.entryUrl ∈ seen
      · simpa [extractRows, h1, h2] using ih seen hu
      · simpa [extractRows, h1, h2] using
          ih (r.entryUrl :: seen) (List.mem_cons_of_mem _ hu)

theorem extract_covered (detail : String → Option DetailFields) (rows : List Row)
    (seen : List String) (r : Row) (hr : r ∈ rows) (hs : r.hasStatus = true)
    (hu : r.entryUrl ≠ "") : r.entryUrl ∈ (extractRows detail rows seen).2 := by
  induction rows generalizing seen with
  | nil => cases hr
  | cons a rest ih =>
    rcases List.mem_cons.mp hr with rfl | hr2
    · by_cases h2 : r.entryUrl ∈ seen
      · simpa [extractRows, hs, Or.inr h2] using extract_seen_mono detail rest seen _ h2
      · have hcond : ¬ (r.entryUrl = "" ∨ r.entryUrl ∈ seen) := by
          intro hc; rcases hc with hc | hc
          · exact hu hc
          · exact h2 hc
        simpa [extractRows, hs, hcond] using
          extract_seen_mono detail rest (r.entryUrl :: seen) _ (List.mem_cons_self _ _)
    · by_cases h1 : a.hasStatus = false
      · simpa [extractRows, h1] using ih seen hr2
      · by_cases h2 : a.entryUrl = "" ∨ a.entryUrl ∈ seen
        · simpa [extractRows, h1, h2] using ih seen hr2
        · simpa [extractRows, h1, h2] using ih (a.entryUrl :: seen) hr2

theorem extract_all_seen (detail : String → Option DetailFields) (rows : List Row)
    (seen : List String)
    (h : ∀ r ∈ rows, r.hasStatus = true → r.entryUrl ≠ "" → r.entryUrl ∈ seen) :
    extractRows detail rows seen = ([], seen) := by
  induction rows with
  | nil => rfl
  | cons a rest ih =>
    have htail := fun r hr => h r (List.mem_cons_of_mem _ hr)
    by_cases h1 : a.hasStatus = false
    · simpa [extractRows, h1] using ih htail
    · have h1t : a.hasStatus = true := by
        revert h1; cases a.hasStatus <;> simp
      by_cases h2 : a.entryUrl = ""
      · simpa [extractRows, h1, h2] using ih htail
      · have hmem : a.entryUrl ∈ seen := h a (List.mem_cons_self _ _) h1t h2
        simpa [extractRows, h1, Or.inr hmem] using ih htail

theorem extract_seen_src (detail : String → Option DetailFields) (rows : List Row)
    (seen : List String) (u : String) (hu : u ∈ (extractRows detail rows seen).2) :
    u ∈ seen ∨ ∃ rec ∈ (extractRows detail rows seen).1, rec.entry_url = u ∧ u ≠ "" := by
  induction rows generalizing seen with
  | nil => left; simpa [extractRows] using hu
  | cons a rest ih =>
    by_cases h1 : a.hasStatus = false
    · simpa [extractRows, h1] using ih seen (by simpa [extractRows, h1] using hu)
    · by_cases h2 : a.entryUrl = "" ∨ a.entryUrl ∈ seen
      · simpa [extractRows, h1, h2] using ih seen (by simpa [extractRows, h1, h2] using hu)
      · have hu2 : u ∈ (extractRows detail rest (a.entryUrl :: seen)).2 := by
          simpa [extractRows, h1, h2] using hu
        have hne : a.entryUrl ≠ "" := fun hc => h2 (Or.inl hc)
        rcases ih (a.entryUrl :: seen) hu2 with hin | ⟨rec, hrec, he, hne2⟩
        · rcases List.mem_cons.mp hin with rfl | hin2
          · right
            exact ⟨mkRecord a (detail a.entryUrl), by
              simp [extractRows, h1, h2], mkRecord_entry_url a _, hne⟩
          · left; exact hin2
        · right
          exact ⟨rec, by
            simp only [extractRows, h1, h2]
            simpa using Or.inr hrec, he, hne2⟩

theorem extract_rec_urls (detail : String → Option DetailFields) (rows : List Row)
    (seen : List String) :
    ∀ rec ∈ (extractRows detail rows seen).1, rec.entry_url ≠ "" ∧ rec.entry_url ∉ seen := by
  induction rows generalizing seen with
  | nil => intro rec hrec; simp [extractRows] at hrec
  | cons a rest ih =>
    intro rec hrec
    by_cases h1 : a.hasStatus = false
    · exact ih seen rec (by simpa [extractRows, h1] using hrec)
    · by_cases h2 : a.entryUrl = "" ∨ a.entryUrl ∈ seen
      · exact ih seen rec (by simpa [extractRows, h1, h2] using hrec)
      · have hrec2 : rec = mkRecord a (detail a.entryUrl) ∨
            rec ∈ (extractRows detail rest (a.entryUrl :: seen)).1 := by
          simpa [extractRows, h1, h2] using hrec
        rcases hrec2 with rfl | hrec2
        · rw [mkRecord_entry_url]
          exact ⟨fun hc => h2 (Or.inl hc), fun hc => h2 (Or.inr hc)⟩
        · have := ih (a.entryUrl :: seen) rec hrec2
          exact ⟨this.1, fun hc => this.2 (List.mem_cons_of_mem _ hc)⟩

theorem extract_nodup (detail : String → Option DetailFields) (rows : List Row)
    (seen : List String) :
    ((extractRows detail rows seen).1.map (fun rec => rec.entry_url)).Nodup := by
  induction rows generalizing seen with
  | nil => simp [extractRows]
  | cons a rest ih =>
    by_cases h1 : a.hasStatus = false
    · simpa [extractRows, h1] using ih seen
    · by_cases h2 : a.entryUrl = "" ∨ a.entryUrl ∈ seen
      · simpa [extractRows, h1, h2] using ih seen
      · have hhead : ∀ rec ∈ (extractRows detail rest (a.entryUrl :: seen)).1,
            rec.entry_url ≠ a.entryUrl := by
          intro rec hrec
          intro hc
          exact (extract_rec_urls detail rest (a.entryUrl :: seen) rec hrec).2
            (hc ▸ List.mem_cons_self _ _)
        have : ((extractRows detail (a :: rest) seen).1.map fun rec => rec.entry_url) =
            a.entryUrl ::
              ((extractRows detail rest (a.entryUrl :: seen)).1.map fun rec => rec.entry_url) := by
          simp [extractRows, h1, h2, mkRecord_entry_url]
        rw [this]
        refine List.nodup_cons.mpr ⟨?_, ih (a.entryUrl :: seen)⟩
        intro hc
        rcases List.mem_map.mp hc with ⟨rec, hrec, he⟩
        exact hhead rec hrec he

/-! ## Lemmas about the pagination loop -/

theorem loop_seen_mono (pages : Nat → Option (List Row)) (detail : String → Option DetailFields)
    (fuel page : Nat) (rows : List Rec) (seen : List String) (u : String) (hu : u ∈ seen) :
    u ∈ (crawlLoop pages detail fuel page rows seen).seen := by
  induction fuel generalizing page rows seen with
  | zero => simpa [crawlLoop] using hu
  | succ fuel ih =>
    by_cases hlen : rows.length < TARGET
    · cases hp : pages page with
      | none => simpa [crawlLoop, hlen, hp] using hu
      | some pr =>
        by_cases hz : (extractRows detail pr seen).1.length = 0
        · simpa [crawlLoop, hlen, hp, hz] using extract_seen_mono detail pr seen u hu
        · simpa [crawlLoop, hlen, hp, hz] using
            ih (page + 1) (rows ++ (extractRows detail pr seen).1)
              (extractRows detail pr seen).2 (extract_seen_mono detail pr seen u hu)
    · simpa [crawlLoop, hlen] using hu

theorem loop_rows_extend (pages : Nat → Option (List Row)) (detail : String → Option DetailFields)
    (fuel page : Nat) (rows : List Rec) (seen : List String) :
    ∃ ext, (crawlLoop pages detail fuel page rows seen).rows = rows ++ ext := by
  induction fuel generalizing page rows seen with
  | zero => exact ⟨[], by simp [crawlLoop]⟩
  | succ fuel ih =>
    by_cases hlen : rows.length < TARGET
    · cases hp : pages page with
      | none => exact ⟨[], by simp [crawlLoop, hlen, hp]⟩
      | some pr =>
        by_cases hz : (extractRows detail pr seen).1.length = 0
        · exact ⟨(extractRows detail pr seen).1, by simp [crawlLoop, hlen, hp, hz]⟩
        · obtain ⟨ext, hext⟩ := ih (page + 1) (rows ++ (extractRows detail pr seen).1)
            (extractRows detail pr seen).2
          exact ⟨(extractRows detail pr seen).1 ++ ext, by
            simp [crawlLoop, hlen, hp, hz, hext]⟩
    · exact ⟨[], by simp [crawlLoop, hlen]⟩

theorem loop_cov (pages : Nat → Option (List Row)) (detail : String → Option DetailFields)
    (fuel page : Nat) (rows : List Rec) (seen : List String) (pr : List Row)
    (hlen : rows.length < TARGET) (hp : pages page = some pr) (r : Row)
    (hr : r ∈ pr) (hs : r.hasStatus = true) (hu : r.entryUrl ≠ "") :
    r.entryUrl ∈ (crawlLoop pages detail (fuel + 1) page rows seen).seen := by
  have hcov := extract_covered detail pr seen r hr hs hu
  by_cases hz : (extractRows detail pr seen).1.length = 0
  · simpa [crawlLoop, hlen, hp, hz] using hcov
  · simpa [crawlLoop, hlen, hp, hz] using
      loop_seen_mono pages detail fuel (page + 1) (rows ++ (extractRows detail pr seen).1)
        (extractRows detail pr seen).2 r.entryUrl hcov

theorem loop_seen_src (pages : Nat → Option (List Row)) (detail : String → Option DetailFields)
    (fuel page : Nat) (rows : List Rec) (seen : List String) (u : String)
    (hu : u ∈ (crawlLoop pages detail fuel page rows seen).seen) :
    u ∈ seen ∨ ∃ rec ∈ (crawlLoop pages detail fuel page rows seen).rows,
      rec.entry_url = u ∧ u ≠ "" := by
  induction fuel generalizing page rows seen with
  | zero => left; simpa [crawlLoop] using hu
  | succ fuel ih =>
    by_cases hlen : rows.length < TARGET
    · cases hp : pages page with
      | none => left; simpa [crawlLoop, hlen, hp] using hu
      | some pr =>
        by_cases hz : (extractRows detail pr seen).1.length = 0
        · have hu2 : u ∈ (extractRows detail pr seen).2 := by
            simpa [crawlLoop, hlen, hp, hz] using hu
          rcases extract_seen_src detail pr seen u hu2 with h | ⟨rec, hrec, he, hne⟩
          · left; exact h
          · right
            refine ⟨rec, ?_, he, hne⟩
            simp only [crawlLoop, hlen, hp, hz]
            simp [hz, List.mem_append, Or.inr hrec]
        · have hu2 : u ∈ (crawlLoop pages detail fuel (page + 1)
              (rows ++ (extractRows detail pr seen).1) (extractRows detail pr seen).2).seen := by
            simpa [crawlLoop, hlen, hp, hz] using hu
          rcases ih (page + 1) (rows ++ (extractRows detail pr seen).1)
              (extractRows detail pr seen).2 hu2 with h | ⟨rec, hrec, he, hne⟩
          · rcases extract_seen_src detail pr seen u h with h2 | ⟨rec, hrec, he, hne⟩
            · left; exact h2
            · right
              obtain ⟨ext, hext⟩ := loop_rows_extend pages detail fuel (page + 1)
                (rows ++ (extractRows detail pr seen).1) (extractRows detail pr seen).2
              refine ⟨rec, ?_, he, hne⟩
              have : rec ∈ (crawlLoop pages detail fuel (page + 1)
                  (rows ++ (extractRows detail pr seen).1) (extractRows detail pr seen).2).rows := by
                rw [hext]
                exact List.mem_append.mpr (Or.inl (List.mem_append.mpr (Or.inr hrec)))
              simpa [crawlLoop, hlen, hp, hz] using this
          · right
            refine ⟨rec, ?_, he, hne⟩
            simpa [crawlLoop, hlen, hp, hz] using hrec
    · left; simpa [crawlLoop, hlen] using hu

/-! ## Lemmas about a whole run -/

theorem resumeSeen_mem (rows : List Rec) (u : String) :
    u ∈ resumeSeen rows ↔ ∃ rec ∈ rows, rec.entry_url = u ∧ u ≠ "" := by
  simp only [resumeSeen, List.mem_filterMap]
  constructor
  · rintro ⟨r, hr, he⟩
    by_cases hz : r.entry_url = ""
    · simp [hz] at he
    · simp only [hz, if_false] at he
      obtain rfl : r.entry_url = u := Option.some.inj he
      exact ⟨r, hr, rfl, hz⟩
  · rintro ⟨r, hr, rfl, hne⟩
    exact ⟨r, hr, by simp [hne]⟩

theorem crawl_rows_extend (pages : Nat → Option (List Row))
    (detail : String → Option DetailFields) (file : List Rec) :
    ∃ ext, (crawl pages detail file).rows = file ++ ext := by
  cases hp : pages 1 with
  | none => exact ⟨[], by simp [crawl, hp]⟩
  | some p1 =>
    obtain ⟨ext, hext⟩ := loop_rows_extend pages detail (TARGET + 1) 2
      (file ++ (extractRows detail p1 (resumeSeen file)).1)
      (extractRows detail p1 (resumeSeen file)).2
    exact ⟨(extractRows detail p1 (resumeSeen file)).1 ++ ext, by
      simp [crawl, hp, hext]⟩

/-- Every member of the final seen set is the `entry_url` of some record
of the final file (the resume reload of a later run therefore recovers a
superset of it). -/
theorem crawl_seen_src (pages : Nat → Option (List Row))
    (detail : String → Option DetailFields) (file : List Rec) (u : String)
    (hu : u ∈ (crawl pages detail file).seen) :
    u ∈ resumeSeen ((crawl pages detail file).rows) := by
  cases hp : pages 1 with
  | none => simpa [crawl, hp] using hu
  | some p1 =>
    have hu2 : u ∈ (crawlLoop pages detail (TARGET + 1) 2
        (file ++ (extractRows detail p1 (resumeSeen file)).1)
        (extractRows detail p1 (resumeSeen file)).2).seen := by
      simpa [crawl, hp] using hu
    have hrows : (crawl pages detail file).rows = (crawlLoop pages detail (TARGET + 1) 2
        (file ++ (extractRows detail p1 (resumeSeen file)).1)
        (extractRows detail p1 (resumeSeen file)).2).rows := by
      simp [crawl, hp]
    obtain ⟨ext, hext⟩ := loop_rows_extend pages detail (TARGET + 1) 2
      (file ++ (extractRows detail p1 (resumeSeen file)).1)
      (extractRows detail p1 (resumeSeen file)).2
    rcases loop_seen_src pages detail (TARGET + 1) 2 _ _ u hu2 with h | ⟨rec, hrec, he, hne⟩
    · rcases extract_seen_src detail p1 (resumeSeen file) u h with h2 | ⟨rec, hrec, he, hne⟩
      · rcases (resumeSeen_mem file u).mp h2 with ⟨rec, hrec, he, hne⟩
        refine (resumeSeen_mem _ u).mpr ⟨rec, ?_, he, hne⟩
        rw [hrows, hext]
        exact List.mem_append.mpr (Or.inl (List.mem_append.mpr (Or.inl hrec)))
      · refine (resumeSeen_mem _ u).mpr ⟨rec, ?_, he, hne⟩
        rw [hrows, hext]
        exact List.mem_append.mpr (Or.inl (List.mem_append.mpr (Or.inr hrec)))
    · refine (resumeSeen_mem _ u).mpr ⟨rec, ?_, he, hne⟩
      rw [hrows]
      exact hrec

/-- Every candidate stub of page 1 has its URL in the final seen set. -/
theorem crawl_cov_p1 (pages : Nat → Option (List Row))
    (detail : String → Option DetailFields) (file : List Rec) (p1 : List Row)
    (hp : pages 1 = some p1) (r : Row) (hr : r ∈ p1) (hs : r.hasStatus = true)
    (hu : r.entryUrl ≠ "") : r.entryUrl ∈ (crawl pages detail file).seen := by
  have hcov := extract_covered detail p1 (resumeSeen file) r hr hs hu
  have := loop_seen_mono pages detail (TARGET + 1) 2
    (file ++ (extractRows detail p1 (resumeSeen file)).1)
    (extractRows detail p1 (resumeSeen file)).2 r.entryUrl hcov
  simpa [crawl, hp] using this

/-- If the run ended below `TARGET`, page 2 was extracted, so every
candidate stub of page 2 has its URL in the final seen set. -/
theorem crawl_cov_p2 (pages : Nat → Option (List Row))
    (detail : String → Option DetailFields) (file : List Rec) (p1 p2 : List Row)
    (hp : pages 1 = some p1) (hp2 : pages 2 = some p2)
    (hlen : (crawl pages detail file).rows.length < TARGET) (r : Row)
    (hr : r ∈ p2) (hs : r.hasStatus = true) (hu : r.entryUrl ≠ "") :
    r.entryUrl ∈ (crawl pages detail file).seen := by
  obtain ⟨ext, hext⟩ := loop_rows_extend pages detail (TARGET + 1) 2
    (file ++ (extractRows detail p1 (resumeSeen file)).1)
    (extractRows detail p1 (resumeSeen file)).2
  have hlen2 : (file ++ (extractRows detail p1 (resumeSeen file)).1).length < TARGET := by
    have hrows : (crawl pages detail file).rows = (crawlLoop pages detail (TARGET + 1) 2
        (file ++ (extractRows detail p1 (resumeSeen file)).1)
        (extractRows detail p1 (resumeSeen file)).2).rows := by
      simp [crawl, hp]
    rw [hrows, hext] at hlen
    calc (file ++ (extractRows detail p1 (resumeSeen file)).1).length
        ≤ ((file ++ (extractRows detail p1 (resumeSeen file)).1) ++ ext).length := by
          simp
      _ < TARGET := hlen
  have := loop_cov pages detail TARGET 2
    (file ++ (extractRows detail p1 (resumeSeen file)).1)
    (extractRows detail p1 (resumeSeen file)).2 p2 hlen2 hp2 r hr hs hu
  simpa [crawl, hp] using this

/-! ## Claim theorems -/

/-- C1: Running the crawler twice in succession against an unchanged
source (the page-fetch function returns the same bodies) starting from a
pre-populated resume file yields the same persisted output — the same
record count and the same set of `entry_url` values — as running it once:
the second run accepts zero new records and introduces no duplicates
(its output list is exactly the first run's output list). -/
theorem crawl_idempotent (f : Nat → List Row) (detail : String → Option DetailFields)
    (file : List Rec) :
    (crawl (pagesOf f) detail (crawl (pagesOf f) detail file).rows).rows
        = (crawl (pagesOf f) detail file).rows ∧
    (crawl (pagesOf f) detail (crawl (pagesOf f) detail file).rows).rows.length
        = (crawl (pagesOf f) detail file).rows.length ∧
    ∀ u, (u ∈ ((crawl (pagesOf f) detail (crawl (pagesOf f) detail file).rows).rows.map
            fun rec => rec.entry_url) ↔
          u ∈ ((crawl (pagesOf f) detail file).rows.map fun rec => rec.entry_url)) := by
  set R1 := (crawl (pagesOf f) detail file).rows with hR1
  have hmain : (crawl (pagesOf f) detail R1).rows = R1 := by
    have hseen1 : ∀ r ∈ f 1, r.hasStatus = true → r.entryUrl ≠ "" →
        r.entryUrl ∈ resumeSeen R1 := by
      intro r hr hs hu
      exact crawl_seen_src (pagesOf f) detail file _
        (crawl_cov_p1 (pagesOf f) detail file (f 1) rfl r hr hs hu)
    have hes1 : extractRows detail (f 1) (resumeSeen R1) = ([], resumeSeen R1) :=
      extract_all_seen detail (f 1) (resumeSeen R1) hseen1
    have hstep : (crawl (pagesOf f) detail R1).rows =
        (crawlLoop (pagesOf f) detail (TARGET + 1) 2 R1 (resumeSeen R1)).rows := by
      simp [crawl, pagesOf, hes1]
    rw [hstep]
    by_cases hlen : R1.length < TARGET
    · have hseen2 : ∀ r ∈ f 2, r.hasStatus = true → r.entryUrl ≠ "" →
          r.entryUrl ∈ resumeSeen R1 := by
        intro r hr hs hu
        exact crawl_seen_src (pagesOf f) detail file _
          (crawl_cov_p2 (pagesOf f) detail file (f 1) (f 2) rfl rfl hlen r hr hs hu)
      have hes2 : extractRows detail (f 2) (resumeSeen R1) = ([], resumeSeen R1) :=
        extract_all_seen detail (f 2) (resumeSeen R1) hseen2
      simp [crawlLoop, hlen, pagesOf, hes2]
    · simp [crawlLoop, hlen]
  exact ⟨hmain, by rw [hmain], fun u => by rw [hmain]⟩

/-- Every record the extractor emits is the assembly of some row with its
detail fetch. -/
theorem extract_mem (detail : String → Option DetailFields) (rows : List Row)
    (seen : List String) :
    ∀ rec ∈ (extractRows detail rows seen).1,
      ∃ r : Row, rec = mkRecord r (detail r.entryUrl) := by
  induction rows generalizing seen with
  | nil => intro rec hrec; simp [extractRows] at hrec
  | cons a rest ih =>
    intro rec hrec
    by_cases h1 : a.hasStatus = false
    · exact ih seen rec (by simpa [extractRows, h1] using hrec)
    · by_cases h2 : a.entryUrl = "" ∨ a.entryUrl ∈ seen
      · exact ih seen rec (by simpa [extractRows, h1, h2] using hrec)
      · have hrec2 : rec = mkRecord a (detail a.entryUrl) ∨
            rec ∈ (extractRows detail rest (a.entryUrl :: seen)).1 := by
          simpa [extractRows, h1, h2] using hrec
        rcases hrec2 with rfl | hrec2
        · exact ⟨a, rfl⟩
        · exact ih (a.entryUrl :: seen) rec hrec2

theorem mkRecord_dates (r : Row) (d : Option DetailFields) :
    (mkRecord r d).acceptance_date = "" ∨ (mkRecord r d).rejection_date = "" := by
  by_cases h : norm_status (pyOr (dget d fun v => v.decision)
      (if r.hasStatus then norm_status r.statusToken else "")) = "Accepted"
  · right
    simp [mkRecord, h]
  · left
    simp [mkRecord, h]

/-- C2: For every run, no two accepted records have equal identity: a
candidate stub (status token present, derivable identity) is accepted
and appended iff its `entry_url` is not already in the seen set;
acceptance adds the `entry_url` to the set; a stub whose `entry_url` is
already present is discarded without modifying the record list. -/
theorem extract_dedup (detail : String → Option DetailFields) :
    (∀ (rows : List Row) (seen : List String),
      ((extractRows detail rows seen).1.map fun rec => rec.entry_url).Nodup ∧
      ∀ rec ∈ (extractRows detail rows seen).1, rec.entry_url ∉ seen) ∧
    (∀ (r : Row) (rest : List Row) (seen : List String),
      r.hasStatus = true → r.entryUrl ≠ "" →
      ((r.entryUrl ∉ seen →
          extractRows detail (r :: rest) seen =
            (mkRecord r (detail r.entryUrl) ::
                (extractRows detail rest (r.entryUrl :: seen)).1,
              (extractRows detail rest (r.entryUrl :: seen)).2)) ∧
        (r.entryUrl ∈ seen →
          extractRows detail (r :: rest) seen = extractRows detail rest seen))) := by
  constructor
  · intro rows seen
    exact ⟨extract_nodup detail rows seen,
      fun rec hrec => (extract_rec_urls detail rows seen rec hrec).2⟩
  · intro r rest seen hs hu
    constructor
    · intro hnot
      have hcond : ¬ (r.entryUrl = "" ∨ r.entryUrl ∈ seen) := by
        intro hc; rcases hc with hc | hc
        · exact hu hc
        · exact hnot hc
      simp [extractRows, hs, hcond]
    · intro hin
      simp [extractRows, hs, Or.inr hin]

theorem extract_dedup_witness :
    extractRows (fun _ => none) [rowA] [] =
      ([mkRecord rowA none], ["u1"]) ∧
    extractRows (fun _ => none) [rowA] ["u1"] = ([], ["u1"]) := by
  constructor
  · have h := ((extract_dedup (fun _ => none)).2 rowA [] [] rfl (by decide)).1 (by decide)
    simpa [extractRows] using h
  · exact ((extract_dedup (fun _ => none)).2 rowA [] ["u1"] rfl (by decide)).2 (by decide)

/-- C3: For every record produced and persisted by the extractor, the
`acceptance_date` and `rejection_date` fields are never both non-empty:
at most one of them is populated. -/
theorem extract_dates_exclusive (detail : String → Option DetailFields)
    (rows : List Row) (seen : List String) :
    ∀ rec ∈ (extractRows detail rows seen).1,
      rec.acceptance_date = "" ∨ rec.rejection_date = "" := by
  intro rec hrec
  obtain ⟨r, rfl⟩ := extract_mem detail rows seen rec hrec
  exact mkRecord_dates r (detail r.entryUrl)

theorem extract_dates_exclusive_witness :
    (mkRecord rowA none).acceptance_date = "" ∨ (mkRecord rowA none).rejection_date = "" :=
  extract_dates_exclusive (fun _ => none) [rowA] [] (mkRecord rowA none) (by decide)

/-- C4: If the detail-page fetch for a stub with a well-formed identity
fails (the ambient `_fetch_detail` returned `{}` after catching the
exception), the record is still produced from stub-derived data alone
and persisted, never dropped; in particular a page-1 stub with identity
`u1` and status `Accepted` whose detail fetch fails yields exactly one
persisted record, with status `Accepted` and empty `acceptance_date`. -/
theorem detail_failure_keeps_record (r : Row) (rest : List Row) (seen : List String)
    (detail : String → Option DetailFields)
    (hs : r.hasStatus = true) (hu : r.entryUrl ≠ "") (hseen : r.entryUrl ∉ seen)
    (hfail : detail r.entryUrl = none) (htok : statusStem r.statusToken) :
    (extractRows detail (r :: rest) seen).1 =
        mkRecord r none :: (extractRows detail rest (r.entryUrl :: seen)).1 ∧
    (mkRecord r none).status = norm_status r.statusToken ∧
    (mkRecord r none).acceptance_date = "" ∧
    (mkRecord r none).rejection_date = "" ∧
    (mkRecord r none).program = r.listProgram ∧
    (mkRecord r none).degree = r.listDegree ∧
    (mkRecord r none).comments = r.comments ∧
    (mkRecord r none).entry_url = r.entryUrl ∧
    (crawl (fun n => if n = 1 then some [r] else some []) detail []).rows =
      [mkRecord r none] := by
  have hcond : ¬ (r.entryUrl = "" ∨ r.entryUrl ∈ seen) := by
    intro hc; rcases hc with hc | hc
    · exact hu hc
    · exact hseen hc
  refine ⟨by simp [extractRows, hs, hcond, hfail], ?_, ?_, ?_, ?_, ?_, ?_, rfl, ?_⟩
  · have : pyOr (dget none fun v => v.decision) (norm_status r.statusToken) =
        norm_status r.statusToken := by
      simp [dget, pyOr]
    simp only [mkRecord, dget, hs, if_true, this]
    exact norm_status_idem_of_stem _ htok
  · simp [mkRecord, dget]
  · simp [mkRecord, dget]
  · simp [mkRecord, dget, pyOr]
  · simp [mkRecord, dget, pyOr]
  · simp [mkRecord, dget, pyOr]
  · simp [crawl, crawlLoop, extractRows, resumeSeen, TARGET, hs, hu, hfail]

theorem extract_nil_seen (detail : String → Option DetailFields) (rows : List Row)
    (seen : List String) (h : (extractRows detail rows seen).1 = []) :
    (extractRows detail rows seen).2 = seen := by
  induction rows generalizing seen with
  | nil => rfl
  | cons a rest ih =>
    by_cases h1 : a.hasStatus = false
    · rw [show extractRows detail (a :: rest) seen = extractRows detail rest seen from by
        simp [extractRows, h1]] at h ⊢
      exact ih seen h
    · by_cases h2 : a.entryUrl = "" ∨ a.entryUrl ∈ seen
      · rw [show extractRows detail (a :: rest) seen = extractRows detail rest seen from by
          simp [extractRows, h1, h2]] at h ⊢
        exact ih seen h
      · exfalso
        have : (extractRows detail (a :: rest) seen).1 =
            mkRecord a (detail a.entryUrl) ::
              (extractRows detail rest (a.entryUrl :: seen)).1 := by
          simp [extractRows, h1, h2]
        rw [this] at h
        cases h

/-- One unfolding of the reference trace. -/
theorem stateAt_succ (f : Nat → List Row) (detail : String → Option DetailFields)
    (file : List Rec) (p : Nat) :
    stateAt f detail file (p + 1) =
      ((stateAt f detail file p).1 ++
          (extractRows detail (f (p + 1)) (stateAt f detail file p).2).1,
        (extractRows detail (f (p + 1)) (stateAt f detail file p).2).2) := rfl

theorem newAt_succ (f : Nat → List Row) (detail : String → Option DetailFields)
    (file : List Rec) (p : Nat) :
    newAt f detail file (p + 1) =
      (extractRows detail (f (p + 1)) (stateAt f detail file p).2).1 := by
  simp [newAt]

/-- Pages that newly accept at least one record strictly grow the trace:
after page `p < k` the trace holds at least `p - 1` records. -/
theorem state_len_ge (f : Nat → List Row) (detail : String → Option DetailFields)
    (file : List Rec) (k : Nat)
    (hnz : ∀ q, 2 ≤ q → q < k → newAt f detail file q ≠ []) :
    ∀ p, p < k → p - 1 ≤ ((stateAt f detail file p).1).length := by
  intro p
  induction p with
  | zero => intro _; simp
  | succ q ihq =>
    intro hlt
    by_cases hq0 : q = 0
    · subst hq0; simp
    · have h1 : q - 1 ≤ ((stateAt f detail file q).1).length := ihq (by omega)
      have h2 : newAt f detail file (q + 1) ≠ [] := hnz (q + 1) (by omega) hlt
      have hpos : 0 < (newAt f detail file (q + 1)).length :=
        List.length_pos.mpr h2
      have hstep : ((stateAt f detail file (q + 1)).1).length =
          ((stateAt f detail file q).1).length + (newAt f detail file (q + 1)).length := by
        rw [stateAt_succ, newAt_succ]
        simp
      omega

/-- The run of the pagination loop from page `p` (with the trace state
after page `p - 1`) against a source whose pages `2 ≤ q < k` all accept
a new record and whose page `k` accepts none, staying below `TARGET`:
the loop walks pages `p..k` and stops there with the trace state after
page `k - 1`. -/
theorem loop_run (f : Nat → List Row) (detail : String → Option DetailFields)
    (file : List Rec) (k : Nat)
    (hnz : ∀ q, 2 ≤ q → q < k → newAt f detail file q ≠ [])
    (hz : newAt f detail file k = [])
    (hlen : ∀ q, 1 ≤ q → q < k → ((stateAt f detail file q).1).length < TARGET) :
    ∀ fuel p, 2 ≤ p → p ≤ k → k - p < fuel →
    crawlLoop (pagesOf f) detail fuel p (stateAt f detail file (p - 1)).1
        (stateAt f detail file (p - 1)).2 =
      ⟨(stateAt f detail file (k - 1)).1, (stateAt f detail file (k - 1)).2,
        List.range' p (k - p + 1), true⟩ := by
  intro fuel
  induction fuel with
  | zero => intro p _ _ hf; exact absurd hf (by omega)
  | succ fuel ih =>
    intro p h2 hk hf
    obtain ⟨q, rfl⟩ : ∃ q, p = q + 1 := ⟨p - 1, by omega⟩
    have hq1 : 1 ≤ q := by omega
    have hq11 : q + 1 - 1 = q := by omega
    rw [hq11]
    have hlt : ((stateAt f detail file q).1).length < TARGET :=
      hlen q (by omega) (by omega)
    by_cases hpk : q + 1 = k
    · subst hpk
      rw [hq11]
      have hnil : (extractRows detail (f (q + 1)) (stateAt f detail file q).2).1 = [] := by
        simpa [newAt, hq11] using hz
      have hseen := extract_nil_seen detail (f (q + 1)) (stateAt f detail file q).2 hnil
      have hr1 : q + 1 - (q + 1) + 1 = 1 := by omega
      rw [hr1, List.range'_one]
      simp [crawlLoop, hlt, pagesOf, hnil, hseen]
    · have hlt2 : q + 1 < k := by omega
      have hne : (extractRows detail (f (q + 1)) (stateAt f detail file q).2).1 ≠ [] := by
        have := hnz (q + 1) (by omega) hlt2
        simpa [newAt, hq11] using this
      have hrec := ih (q + 2) (by omega) (by omega) (by omega)
      have h21 : q + 2 - 1 = q + 1 := by omega
      rw [h21, stateAt_succ] at hrec
      have hlen0 : ¬ ((extractRows detail (f (q + 1))
          (stateAt f detail file q).2).1.length = 0) := by
        simpa [List.length_eq_zero] using hne
      have hout : crawlLoop (pagesOf f) detail (fuel + 1) (q + 1)
          (stateAt f detail file q).1 (stateAt f detail file q).2 =
          ⟨(stateAt f detail file (k - 1)).1, (stateAt f detail file (k - 1)).2,
            (q + 1) :: List.range' (q + 2) (k - (q + 2) + 1), true⟩ := by
        simp only [crawlLoop, hlt, if_true, pagesOf, hlen0, if_false, hrec]
      rw [hout]
      have hrange : List.range' (q + 1) (k - (q + 1) + 1) =
          (q + 1) :: List.range' (q + 2) (k - (q + 2) + 1) := by
        have hn : k - (q + 1) + 1 = (k - (q + 2) + 1) + 1 := by omega
        rw [hn, List.range'_succ]
      rw [hrange]

/-- C8 (amended): for every k ≥ 2 such that pages 2..k−1 each accept at
least one previously-unseen stub, page k accepts none, and the record
count stays below `TARGET` throughout, the pagination controller fetches
exactly pages 1..k (stopping after page k) and the persisted file then
contains exactly the records accepted through page k−1, with a normal
exit.  (The original claim's k = 1 instance is false: page 1 is processed
outside the loop, so a page 1 with no new stubs does not stop the
crawl — see the counterexample.) -/
theorem termination_amended (f : Nat → List Row) (detail : String → Option DetailFields)
    (file : List Rec) (k : Nat) (hk : 2 ≤ k)
    (hnz : ∀ q, 2 ≤ q → q < k → newAt f detail file q ≠ [])
    (hz : newAt f detail file k = [])
    (hlen : ∀ q, 1 ≤ q → q < k → ((stateAt f detail file q).1).length < TARGET) :
    (crawl (pagesOf f) detail file).fetched = List.range' 1 k ∧
    (crawl (pagesOf f) detail file).rows = (stateAt f detail file (k - 1)).1 ∧
    (crawl (pagesOf f) detail file).ok = true := by
  obtain ⟨j, rfl⟩ : ∃ j, k = j + 2 := ⟨k - 2, by omega⟩
  have hfuel : j + 2 - 2 < TARGET + 1 := by
    have hge := state_len_ge f detail file (j + 2) hnz (j + 1) (by omega)
    have hlk := hlen (j + 1) (by omega) (by omega)
    omega
  have hrun := loop_run f detail file (j + 2) hnz hz hlen (TARGET + 1) 2
    (by omega) (by omega) hfuel
  have h21 : (2 : Nat) - 1 = 1 := rfl
  rw [h21] at hrun
  have hst1a : (stateAt f detail file 1).1 =
      file ++ (extractRows detail (f 1) (resumeSeen file)).1 := rfl
  have hst1b : (stateAt f detail file 1).2 =
      (extractRows detail (f 1) (resumeSeen file)).2 := rfl
  rw [hst1a, hst1b] at hrun
  have hcrawl : crawl (pagesOf f) detail file =
      ⟨(stateAt f detail file (j + 2 - 1)).1, (stateAt f detail file (j + 2 - 1)).2,
        1 :: List.range' 2 (j + 2 - 2 + 1), true⟩ := by
    simp [crawl, pagesOf, hrun]
  rw [hcrawl]
  refine ⟨?_, rfl, rfl⟩
  have hn1 : j + 2 - 2 + 1 = j + 1 := by omega
  rw [hn1]
  rw [show List.range' 1 (j + 2) = 1 :: List.range' 2 (j + 1) from List.range'_succ 1 (j + 1) 1]

/-- C8 counterexample: a source whose page 1 yields zero
previously-unseen stubs but whose page 2 yields a new one.  The claim,
instantiated at k = 1, requires the controller to stop after page 1 with
the records accepted through page 0 (none); the controller actually
fetches pages 1, 2 and 3 and persists one record, because page 1 is
processed before the loop's zero-new-stubs test applies. -/
theorem stop_at_first_empty_page_cex :
    cex8pages 1 = [] ∧
    (crawl (pagesOf cex8pages) noDetail []).fetched = [1, 2, 3] ∧
    (crawl (pagesOf cex8pages) noDetail []).rows = [mkRecord rowA none] := by
  refine ⟨rfl, ?_, ?_⟩ <;> decide

theorem termination_amended_witness :
    (crawl (pagesOf wit8pages) noDetail []).fetched = List.range' 1 3 ∧
    (crawl (pagesOf wit8pages) noDetail []).rows = (stateAt wit8pages noDetail [] 2).1 ∧
    (crawl (pagesOf wit8pages) noDetail []).ok = true :=
  termination_amended wit8pages noDetail [] 3 (by omega)
    (fun q h2 h3 => by
      have hq : q = 2 := by omega
      subst hq
      decide)
    (by decide)
    (fun q h1 h3 => by
      have hq : q = 1 ∨ q = 2 := by omega
      rcases hq with hq | hq <;> subst hq <;> decide)

/-- C5 counterexample: the detail page's non-empty decision `"ACCEPTED"`
does not survive verbatim into the assembled record — the assembler
stores the normalized form `"Accepted"`, so the record does not equal
the detail-page value for the status field. -/
theorem merge_status_not_verbatim_cex :
    detailCaps.decision = "ACCEPTED" ∧ detailCaps.decision ≠ "" ∧
    (mkRecord rowA (some detailCaps)).status = "Accepted" ∧
    (mkRecord rowA (some detailCaps)).status ≠ detailCaps.decision := by
  refine ⟨rfl, ?_, ?_, ?_⟩ <;> decide

/-- C5 (amended): For `program`, `degree`, `university` and `comments`
the assembled record equals the detail-page value when it is non-empty
and keeps the stub (listing-derived) value when it is empty or the fetch
failed — the enriched variant's listing university is always the empty
string, so `university` falls back to `""`.  For `status` the record
holds the *normalized* detail decision when it is non-empty (not
necessarily the verbatim detail string) and the stub's normalized status
otherwise. -/
theorem merge_rule_amended (r : Row) (d : DetailFields)
    (htok : statusStem r.statusToken) (hs : r.hasStatus = true) :
    ((d.program ≠ "" → (mkRecord r (some d)).program = d.program) ∧
      (d.program = "" → (mkRecord r (some d)).program = r.listProgram)) ∧
    ((d.degree ≠ "" → (mkRecord r (some d)).degree = d.degree) ∧
      (d.degree = "" → (mkRecord r (some d)).degree = r.listDegree)) ∧
    ((d.university ≠ "" → (mkRecord r (some d)).university = d.university) ∧
      (d.university = "" → (mkRecord r (some d)).university = "")) ∧
    ((d.notes ≠ "" → (mkRecord r (some d)).comments = d.notes) ∧
      (d.notes = "" → (mkRecord r (some d)).comments = r.comments)) ∧
    ((d.decision ≠ "" → (mkRecord r (some d)).status = norm_status d.decision) ∧
      (d.decision = "" → (mkRecord r (some d)).status = norm_status r.statusToken)) ∧
    (mkRecord r none).program = r.listProgram ∧
    (mkRecord r none).degree = r.listDegree ∧
    (mkRecord r none).comments = r.comments := by
  refine ⟨⟨?_, ?_⟩, ⟨?_, ?_⟩, ⟨?_, ?_⟩, ⟨?_, ?_⟩, ⟨?_, ?_⟩, ?_, ?_, ?_⟩
  · intro h; simp [mkRecord, dget, pyOr, h]
  · intro h; simp [mkRecord, dget, pyOr, h]
  · intro h; simp [mkRecord, dget, pyOr, h]
  · intro h; simp [mkRecord, dget, pyOr, h]
  · intro h; simp [mkRecord, dget, pyOr, h]
  · intro h; simp [mkRecord, dget, pyOr, h]
  · intro h; simp [mkRecord, dget, pyOr, h]
  · intro h; simp [mkRecord, dget, pyOr, h]
  · intro h; simp [mkRecord, dget, pyOr, h]
  · intro h
    simp only [mkRecord, dget, hs, if_true, h, pyOr, if_pos]
    exact norm_status_idem_of_stem _ htok
  · simp [mkRecord, dget, pyOr]
  · simp [mkRecord, dget, pyOr]
  · simp [mkRecord, dget, pyOr]

theorem merge_rule_amended_witness :
    ((detailFull.program ≠ "" →
        (mkRecord rowA (some detailFull)).program = detailFull.program) ∧
      (detailFull.program = "" →
        (mkRecord rowA (some detailFull)).program = rowA.listProgram)) ∧
    ((detailFull.degree ≠ "" →
        (mkRecord rowA (some detailFull)).degree = detailFull.degree) ∧
      (detailFull.degree = "" →
        (mkRecord rowA (some detailFull)).degree = rowA.listDegree)) ∧
    ((detailFull.university ≠ "" →
        (mkRecord rowA (some detailFull)).university = detailFull.university) ∧
      (detailFull.university = "" →
        (mkRecord rowA (some detailFull)).university = "")) ∧
    ((detailFull.notes ≠ "" →
        (mkRecord rowA (some detailFull)).comments = detailFull.notes) ∧
      (detailFull.notes = "" →
        (mkRecord rowA (some detailFull)).comments = rowA.comments)) ∧
    ((detailFull.decision ≠ "" →
        (mkRecord rowA (some detailFull)).status = norm_status detailFull.decision) ∧
      (detailFull.decision = "" →
        (mkRecord rowA (some detailFull)).status = norm_status rowA.statusToken)) ∧
    (mkRecord rowA none).program = rowA.listProgram ∧
    (mkRecord rowA none).degree = rowA.listDegree ∧
    (mkRecord rowA none).comments = rowA.comments :=
  merge_rule_amended rowA detailFull (Or.inl (by decide)) rfl

/-- C6 counterexample: a stub whose two-row context text carries the
parseable date `March 14, 2025`, with final status Accepted, whose
detail page yields no notification date: the claim requires the context
date to be routed into `acceptance_date`, but the enriched extractor
leaves both date fields empty. -/
theorem stub_context_date_not_routed_cex :
    rowCtx.ctxDate = "March 14, 2025" ∧
    emptyDetail.notification_on = "" ∧
    (mkRecord rowCtx (some emptyDetail)).status = "Accepted" ∧
    (mkRecord rowCtx (some emptyDetail)).acceptance_date = "" ∧
    (mkRecord rowCtx (some emptyDetail)).acceptance_date ≠ rowCtx.ctxDate := by
  refine ⟨rfl, rfl, ?_, ?_, ?_⟩ <;> decide

/-- C6 (amended): the enriched (module_4) assembler takes the settlement
date only from the detail page's notification date — when the detail
page yields none (or the fetch failed), both date fields are left empty
and the stub's context date is never consulted.  It is the listing-only
(module_3) variant that routes the date found in the posted-date cell or
the two-row context to `acceptance_date`/`rejection_date` by status.  In
both variants, when no source yields a parseable date both date fields
stay empty; no date is ever guessed from a fallback value. -/
theorem date_routing_amended :
    (∀ (r : Row) (d : Option DetailFields),
      dget d (fun v => v.notification_on) = "" →
        (mkRecord r d).acceptance_date = "" ∧ (mkRecord r d).rejection_date = "") ∧
    (∀ r : Row,
      ((m3_mkRecord r).acceptance_date =
        if m3_date r ≠ "" ∧ (m3_mkRecord r).status = "Accepted" then m3_date r else "") ∧
      ((m3_mkRecord r).rejection_date =
        if m3_date r ≠ "" ∧ (m3_mkRecord r).status = "Rejected" then m3_date r else "") ∧
      (m3_date r = "" →
        (m3_mkRecord r).acceptance_date = "" ∧ (m3_mkRecord r).rejection_date = "")) := by
  constructor
  · intro r d h
    constructor <;> simp [mkRecord, h]
  · intro r
    refine ⟨rfl, rfl, ?_⟩
    intro h
    constructor <;> simp [m3_mkRecord, h]

theorem date_routing_amended_witness :
    ((mkRecord rowCtx (some emptyDetail)).acceptance_date = "" ∧
      (mkRecord rowCtx (some emptyDetail)).rejection_date = "") ∧
    ((m3_mkRecord rowCtx).acceptance_date =
      if m3_date rowCtx ≠ "" ∧ (m3_mkRecord rowCtx).status = "Accepted" then m3_date rowCtx
      else "") :=
  ⟨date_routing_amended.1 rowCtx (some emptyDetail) rfl,
    (date_routing_amended.2 rowCtx).1⟩

/-- C7: the robots evaluator considers only `Disallow` rules inside the
wildcard (`*`) user-agent group of the fetched robots.txt body; it
returns `false` iff some such rule is a non-empty string prefix of the
path, and `true` otherwise — in particular for a missing (404 body) or
unparseable file, whose parse yields no wildcard `Disallow` rules
(fail-open). -/
theorem robots_allowed_iff (txt path : String) :
    (robots_allowed txt path = false ↔
      ∃ rule ∈ robotsDisallows txt, rule ≠ "" ∧ strStartsWith path rule = true) ∧
    (robotsDisallows txt = [] → robots_allowed txt path = true) := by
  constructor
  · simp [robots_allowed, List.any_eq_true]
  · intro h
    simp [robots_allowed, h]

theorem robots_allowed_iff_witness :
    robots_allowed ("User-agent: *\nDisallow: /survey/\n") ("/survey/") = false ∧
    robots_allowed ("this file is not a robots.txt at all") ("/survey/") = true :=
  ⟨(robots_allowed_iff ("User-agent: *\nDisallow: /survey/\n") ("/survey/")).1.mpr
      ⟨"/survey/", by decide, by decide, by decide⟩,
    (robots_allowed_iff ("this file is not a robots.txt at all") ("/survey/")).2 (by decide)⟩

theorem detail_failure_keeps_record_witness :
    (extractRows noDetail [rowA] []).1 =
        mkRecord rowA none :: (extractRows noDetail [] ["u1"]).1 ∧
    (mkRecord rowA none).status = norm_status ("Accepted") ∧
    (mkRecord rowA none).acceptance_date = "" ∧
    (mkRecord rowA none).rejection_date = "" ∧
    (mkRecord rowA none).program = "Computer Science" ∧
    (mkRecord rowA none).degree = "PhD" ∧
    (mkRecord rowA none).comments = "" ∧
    (mkRecord rowA none).entry_url = "u1" ∧
    (crawl (fun n => if n = 1 then some [rowA] else some []) noDetail []).rows =
      [mkRecord rowA none] :=
  detail_failure_keeps_record rowA [] [] noDetail rfl (by decide) (by decide) rfl
    (Or.inl (by decide))

/-- C9 (amended): a non-2xx list-page response is not an exception —
urllib3 returns the error page as a body, its parse yields no candidate
rows, and the loop treats it as end-of-pagination: zero records accepted,
a final flush that leaves the file content unchanged, and a normal exit.
A transport failure (unreachable host: the fetch raises) also stops the
crawl with the file preserved exactly as flushed through the prior page,
but the exception propagates out of `main`: there is no further flush
and the process does not exit success. -/
theorem page_fetch_failure_amended (pages : Nat → Option (List Row))
    (detail : String → Option DetailFields) (fuel page : Nat) (rows : List Rec)
    (seen : List String) (hlen : rows.length < TARGET) :
    (pages page = none →
      crawlLoop pages detail (fuel + 1) page rows seen = ⟨rows, seen, [page], false⟩) ∧
    (pages page = some [] →
      crawlLoop pages detail (fuel + 1) page rows seen = ⟨rows, seen, [page], true⟩) := by
  constructor
  · intro hp
    simp [crawlLoop, hlen, hp]
  · intro hp
    simp [crawlLoop, hlen, hp, extractRows]

/-- C9 counterexample: page 1 accepts one record, then the page-2 fetch
raises (unreachable).  The run stops and the file keeps the record
flushed after page 1, but the uncaught exception means the process does
not exit success after a final flush, contradicting the claim for the
unreachable case. -/
theorem page_fetch_exception_cex :
    cex9pages 2 = none ∧
    (crawl cex9pages noDetail []).rows = [mkRecord rowA none] ∧
    (crawl cex9pages noDetail []).ok = false := by
  refine ⟨rfl, ?_, ?_⟩ <;> decide

theorem page_fetch_failure_amended_witness :
    (crawlLoop cex9pages noDetail (4 + 1) 2 [mkRecord rowA none] ["u1"] =
      ⟨[mkRecord rowA none], ["u1"], [2], false⟩) ∧
    (crawlLoop (fun _ => some []) noDetail (4 + 1) 2 [mkRecord rowA none] ["u1"] =
      ⟨[mkRecord rowA none], ["u1"], [2], true⟩) :=
  ⟨(page_fetch_failure_amended cex9pages noDetail 4 2 [mkRecord rowA none] ["u1"]
      (by decide)).1 rfl,
    (page_fetch_failure_amended (fun _ => some []) noDetail 4 2 [mkRecord rowA none] ["u1"]
      (by decide)).2 rfl⟩

/-- C10 counterexample: `_to_long_date` is not always `Month DD, YYYY`:
the four-digit token `0005` parses to year 5, and glibc `strftime("%Y")`
prints it without zero padding, so the non-empty output
`"January 01, 5"` does not carry a four-digit year. -/
theorem to_long_date_year_digits_cex :
    to_long_date ("1/1/0005") = "January 01, 5" ∧
    to_long_date ("1/1/0005") ≠ "" ∧
    specLongFormat (to_long_date ("1/1/0005")) = false ∧
    specLongFormat ("September 14, 2025") = true := by
  refine ⟨?_, ?_, ?_, ?_⟩ <;> decide

/-- C10 (amended): `_to_long_date` is total and format-normalizing: every
input yields either the empty string or `fmtLong y m d` for a
calendar-valid date — the full month name, a zero-padded two-digit day,
and the year as an unpadded decimal (four digits exactly when the year
is at least 1000, which holds for all real notification dates; fewer for
a year like 0005).  `DD/MM/YYYY`, `YYYY-MM-DD` and abbreviated-month
tokens normalize to this long form, and a slashed token is interpreted
day-first exactly when its first component exceeds 12.  Consequently
every non-empty `acceptance_date` or `rejection_date` the enriched
extractor writes from a detail notification is of this shape. -/
theorem to_long_date_amended :
    (∀ token : String, to_long_date token = "" ∨
      ∃ y m d, validYMD y m d = true ∧ to_long_date token = fmtLong y m d) ∧
    to_long_date ("14/09/2025") = "September 14, 2025" ∧
    to_long_date ("2025-09-14") = "September 14, 2025" ∧
    to_long_date ("Sep 14, 2025") = "September 14, 2025" ∧
    to_long_date ("05/06/2025") = "May 06, 2025" ∧
    to_long_date ("13/06/2025") = "June 13, 2025" ∧
    specLongFormat (to_long_date ("14/09/2025")) = true ∧
    (∀ (row : Row) (rest : DetailFields) (m : Option String),
      ((mkRecord row
          (some { rest with notification_on := notification_of m })).acceptance_date = "" ∨
        ∃ y mo d, validYMD y mo d = true ∧
          (mkRecord row
            (some { rest with notification_on := notification_of m })).acceptance_date =
            fmtLong y mo d) ∧
      ((mkRecord row
          (some { rest with notification_on := notification_of m })).rejection_date = "" ∨
        ∃ y mo d, validYMD y mo d = true ∧
          (mkRecord row
            (some { rest with notification_on := notification_of m })).rejection_date =
            fmtLong y mo d)) := by
  refine ⟨to_long_date_shape, by decide, by decide, by decide, by decide, by decide,
    by decide, ?_⟩
  intro row rest m
  have hnote : ∀ s : String,
      s = dget (some { rest with notification_on := notification_of m })
          (fun v => v.notification_on) →
      s = "" ∨ ∃ y mo d, validYMD y mo d = true ∧ s = fmtLong y mo d := by
    intro s hs
    cases m with
    | none => left; simpa [dget, notification_of] using hs
    | some tok =>
      have : s = to_long_date tok := by simpa [dget, notification_of] using hs
      rw [this]
      exact to_long_date_shape tok
  constructor
  · by_cases hacc : (mkRecord row
        (some { rest with notification_on := notification_of m })).status = "Accepted"
    · have heq : (mkRecord row
          (some { rest with notification_on := notification_of m })).acceptance_date =
          dget (some { rest with notification_on := notification_of m })
            (fun v => v.notification_on) := by
        simp only [mkRecord] at hacc ⊢
        simp [hacc]
      rw [heq]
      exact hnote _ rfl
    · left
      simp only [mkRecord] at hacc ⊢
      simp [hacc]
  · by_cases hrej : (mkRecord row
        (some { rest with notification_on := notification_of m })).status = "Rejected"
    · have heq : (mkRecord row
          (some { rest with notification_on := notification_of m })).rejection_date =
          dget (some { rest with notification_on := notification_of m })
            (fun v => v.notification_on) := by
        simp only [mkRecord] at hrej ⊢
        simp [hrej]
      rw [heq]
      exact hnote _ rfl
    · left
      simp only [mkRecord] at hrej ⊢
      simp [hrej]

end Scrape
